import Mathlib

/-!
Verification of the string-analyzer-api core against its specification.

Two subsystems are embedded here, translated from the repository's source:

* the natural-language query parser (`parseNaturalLanguageQuery` from
  `src/parsers/nlParser.js`, in the revision that carries the word-count
  conflict check, the exact-length rule and the vowel heuristic);
* the analysis engine (`analyzeString` from `src/analyze.js`), including a
  full SHA-256 implementation mirroring `crypto.createHash("sha256")`.

JavaScript strings are modelled at the storage level, as lists of UTF-16
code units (`List Nat`); the string iterator (`Array.from`, `for..of`) is
modelled by `codePoints`, which pairs surrogates exactly as the ECMAScript
string iterator does.  Phrases fed to the parser are modelled as `List Char`
since every grammar rule is an ASCII pattern.

Each regular expression of the parser is translated into an explicit
leftmost-scan function whose backtracking order follows the ECMAScript
regex semantics for that concrete pattern; the comments on each function
name the pattern it models.
-/

/-! ### Parser: character classes and scanning primitives -/

/-- ECMAScript `\w` character class: `[A-Za-z0-9_]`. -/
def isWordChar (c : Char) : Bool := c.isAlphanum || c == '_'

/-- ECMAScript `\s` on the ASCII range (space, tab, LF, VT, FF, CR); the
phrases in the grammar only ever use these. -/
def isSpaceChar (c : Char) : Bool :=
  c == ' ' || c == '\t' || c == '\n' || c == '\r' ||
  c == Char.ofNat 11 || c == Char.ofNat 12

/-- Lowercase ASCII letter, the `[a-z]` class. -/
def isLowerAlpha (c : Char) : Bool := 'a' ≤ c && c ≤ 'z'

/-- Single-quote character, kept out of literal syntax for clarity. -/
def squote : Char := Char.ofNat 39

/-- Double-quote character. -/
def dquote : Char := Char.ofNat 34

/-- Strip a literal off the front of the text, or fail. -/
def stripLit : List Char → List Char → Option (List Char)
  | [], l => some l
  | _ :: _, [] => none
  | a :: as, c :: cs => if a == c then stripLit as cs else none

/-- Match `\s+` greedily: at least one space character, then all following
space characters. -/
def stripSpaces1 : List Char → Option (List Char)
  | [] => none
  | c :: rest =>
    if isSpaceChar c then some (rest.dropWhile isSpaceChar) else none

/-- Numeric value of a digit run. -/
def digitsVal (ds : List Char) : Nat :=
  ds.foldl (fun a c => 10 * a + (c.toNat - 48)) 0

/-- Match `\d+` greedily: the maximal digit run, with its value. -/
def stripDigits1 (l : List Char) : Option (Nat × List Char) :=
  let ds := l.takeWhile Char.isDigit
  if ds.isEmpty then none else some (digitsVal ds, l.dropWhile Char.isDigit)

/-- Word boundary `\b` seen from the right of a match that ends in a word
character: the next character is absent or not a word character. -/
def boundaryAfter : List Char → Bool
  | [] => true
  | c :: _ => !isWordChar c

/-- Substring test (`String.prototype.includes`). -/
def hasSubstring (lit : List Char) : List Char → Bool
  | [] => lit.isEmpty
  | c :: rest => lit.isPrefixOf (c :: rest) || hasSubstring lit rest

/-! ### Parser: the individual grammar rules -/

/-- Literal for the palindrome rule. -/
def palindromLit : List Char := "palindrom".toList

/-- Scan for `/\bpalindrom/`: a position preceded by start-of-text or a
non-word character where the literal `palindrom` begins.  The boolean
argument records whether the current position sits at a word boundary. -/
def matchPalindromFrom : Bool → List Char → Bool
  | _, [] => false
  | b, c :: rest =>
    (b && palindromLit.isPrefixOf (c :: rest)) ||
    matchPalindromFrom (!isWordChar c) rest

/-- Test of `/\bpalindrom/` against the whole text. -/
def matchPalindrom (l : List Char) : Bool := matchPalindromFrom true l

/-- Literal `single`. -/
def singleLit : List Char := "single".toList

/-- Literal `one`. -/
def oneLit : List Char := "one".toList

/-- Literal `word`. -/
def wordLit : List Char := "word".toList

/-- Body of `/\b(single|one)\s+word\b/` at one position: the alternation
(`single` tried before `one`), one-or-more spaces, the literal `word`, and
a word boundary after it. -/
def singleWordAt (l : List Char) : Bool :=
  match (do
    let r1 ← HOrElse.hOrElse (stripLit singleLit l) fun _ => stripLit oneLit l
    let r2 ← stripSpaces1 r1
    stripLit wordLit r2) with
  | some r3 => boundaryAfter r3
  | none => false

/-- Leftmost scan for `/\b(single|one)\s+word\b/`, tracking the boundary
state before each position. -/
def matchSingleWordFrom : Bool → List Char → Bool
  | _, [] => false
  | b, c :: rest =>
    (b && singleWordAt (c :: rest)) || matchSingleWordFrom (!isWordChar c) rest

/-- Test of `/\b(single|one)\s+word\b/` against the whole text. -/
def matchSingleWord (l : List Char) : Bool := matchSingleWordFrom true l

/-- Body of `/(?:exactly\s+)?(\d+)\s+words?/` at one position: the capture
is the digit run; the optional `exactly` prefix and the optional trailing
`s` never change the captured number, so the match condition is the digit
run followed by spaces and the literal `word`. -/
def wordNumAt (l : List Char) : Option Nat := do
  let (n, r1) ← stripDigits1 l
  let r2 ← stripSpaces1 r1
  let _ ← stripLit wordLit r2
  pure n

/-- Leftmost capture of `/(?:exactly\s+)?(\d+)\s+words?/`: `text.match`
without the global flag reports only the first match. -/
def findWordNum : List Char → Option Nat
  | [] => none
  | c :: rest =>
    match wordNumAt (c :: rest) with
    | some n => some n
    | none => findWordNum rest

/-- Body of `/longer than (\d+)/` (the optional `(?:\s+chars?)?` suffix
does not affect the capture): the literal followed by a digit run. -/
def numAfterLitAt (lit : List Char) (l : List Char) : Option Nat := do
  let r1 ← stripLit lit l
  let (n, _) ← stripDigits1 r1
  pure n

/-- Leftmost capture of a `<literal><digits>` pattern such as
`/longer than (\d+)/` or `/shorter than (\d+)/`. -/
def findNumAfterLit (lit : List Char) : List Char → Option Nat
  | [] => none
  | c :: rest =>
    match numAfterLitAt lit (c :: rest) with
    | some n => some n
    | none => findNumAfterLit lit rest

/-- Literal for the Longer-than rule, spacing as in the source regex. -/
def longerThanLit : List Char := "longer than ".toList

/-- Literal for the Shorter-than rule. -/
def shorterThanLit : List Char := "shorter than ".toList

/-- Literal `chars`. -/
def charsLit : List Char := "chars".toList

/-- Literal `char`. -/
def charLit : List Char := "char".toList

/-- Body of `/\b(\d+)\s+chars?\b/` at one position: digit run, spaces, then
(greedily) `chars` with a boundary after it, or `char` with a boundary
after it.  Note the pattern cannot match the word `characters`: after
`char` the next character is `a` and after `chars` there is no `s`, so the
trailing `\b` fails on both alternatives. -/
def exactCharsAt (l : List Char) : Option Nat := do
  let (n, r1) ← stripDigits1 l
  let r2 ← stripSpaces1 r1
  if (match stripLit charsLit r2 with
      | some r3 => boundaryAfter r3
      | none => false) ||
     (match stripLit charLit r2 with
      | some r3 => boundaryAfter r3
      | none => false)
  then pure n else none

/-- Leftmost scan for `/\b(\d+)\s+chars?\b/`, tracking the word-boundary
state required before the digit run. -/
def findExactCharsFrom : Bool → List Char → Option Nat
  | _, [] => none
  | b, c :: rest =>
    match (if b then exactCharsAt (c :: rest) else none) with
    | some n => some n
    | none => findExactCharsFrom (!isWordChar c) rest

/-- Capture of `/\b(\d+)\s+chars?\b/` against the whole text. -/
def findExactChars (l : List Char) : Option Nat := findExactCharsFrom true l

/-- Literal `the`. -/
def theLit : List Char := "the".toList

/-- Literal `letter`. -/
def letterLit : List Char := "letter".toList

/-- Literal `character`. -/
def characterLit : List Char := "character".toList

/-- Literal `contain`. -/
def containLit : List Char := "contain".toList

/-- Literal `containing`. -/
def containingLit : List Char := "containing".toList

/-- Tail of the contains regex: `(['"]?)([a-z])\1` — an optional quote
(captured, matched greedily), a lowercase letter, and the back-reference
to the same quote.  When the head is a quote the quoted form is the only
candidate, because on backtracking the empty-quote alternative would have
to read the quote itself as `[a-z]`, which fails. -/
def capCharAt : List Char → Option Char
  | [] => none
  | x :: rest =>
    if x == squote || x == dquote then
      match rest with
      | y :: z :: _ => if isLowerAlpha y && z == x then some y else none
      | _ => none
    else if isLowerAlpha x then some x else none

/-- Optional group `(?:the\s+(?:letter|character)\s+)?` followed by the
quoted-letter tail: the group is tried greedily and on failure the tail is
re-tried directly at the same position (so `contains the x` captures the
`t` of `the`, exactly as the regex engine does). -/
def theGroupOrDirect (r3 : List Char) : Option Char :=
  match (do
    let r4 ← stripLit theLit r3
    let r5 ← stripSpaces1 r4
    let r6 ← HOrElse.hOrElse (stripLit letterLit r5) fun _ =>
      stripLit characterLit r5
    let r7 ← stripSpaces1 r6
    capCharAt r7) with
  | some c => some c
  | none => capCharAt r3

/-- Mandatory `\s+` of the contains regex, then the rest. -/
def wsThenCap (r : List Char) : Option Char := do
  let r3 ← stripSpaces1 r
  theGroupOrDirect r3

/-- Optional `(?:s)?` after the contain/containing alternation, matched
greedily: with the `s` first, then without. -/
def containTail : List Char → Option Char
  | [] => none
  | c :: r2 =>
    if c == 's' then
      match wsThenCap r2 with
      | some x => some x
      | none => wsThenCap (c :: r2)
    else wsThenCap (c :: r2)

/-- Body of the explicit-character regex
`/(?:contain|containing)(?:s)?\s+(?:the\s+(?:letter|character)\s+)?(['"]?)([a-z])\1/`
at one position: `contain` is the first alternative, `containing` the
backtracking fallback. -/
def containsAt (l : List Char) : Option Char :=
  match (do
    let r ← stripLit containLit l
    containTail r) with
  | some c => some c
  | none => do
    let r ← stripLit containingLit l
    containTail r

/-- Leftmost capture of the explicit-character regex. -/
def findContainsChar : List Char → Option Char
  | [] => none
  | c :: rest =>
    match containsAt (c :: rest) with
    | some x => some x
    | none => findContainsChar rest

/-- Vowel heuristic: `text.includes("first vowel") ||
text.includes("initial vowel")`. -/
def hasFirstVowelPhrase (l : List Char) : Bool :=
  hasSubstring "first vowel".toList l || hasSubstring "initial vowel".toList l

/-! ### Parser: filter object, errors, and the pipeline -/

/-- Structured filter accumulated by the grammar rules; absent JavaScript
object keys are modelled as `none`.  Length bounds are integers because
`shorter than 0` produces the value `-1`. -/
structure ParsedFilter where
  is_palindrome : Option Bool := none
  word_count : Option Nat := none
  min_length : Option Int := none
  max_length : Option Int := none
  contains_character : Option Char := none
deriving Repr, DecidableEq

/-- Error kinds thrown by the parser (`ParsingError` with its message and
HTTP status in the source). -/
inductive ParseError where
  /-- Message `"Empty natural language query"`, status 400. -/
  | emptyQuery : ParseError
  /-- Message `"Query contains conflicting word count requirements."`, 422 —
  the spec's `ParseConflict`. -/
  | wordCountConflict : ParseError
  /-- Message `"Unable to parse natural language query"`, 400 — the spec's
  `Unparseable`. -/
  | unparseable : ParseError
  /-- Message `"Parsed filters are conflicting (min_length > max_length)"`,
  422 — the spec's `InfeasibleRange`. -/
  | infeasibleRange : ParseError
deriving Repr, DecidableEq

/-- Successful result of the parser: `{ original, parsed_filters }`. -/
structure InterpretResult where
  original : String
  parsed_filters : ParsedFilter
deriving Repr, DecidableEq

deriving instance DecidableEq for Except

/-- Case-folded copy of the phrase (`raw.toLowerCase()`); the JavaScript
built-in is modelled on the ASCII range, which covers every pattern of the
grammar. -/
def asciiToLower (c : Char) : Char :=
  if 'A' ≤ c && c ≤ 'Z' then Char.ofNat (c.toNat + 32) else c

/-- Lowered character list of the raw phrase. -/
def lowerText (raw : String) : List Char := raw.toList.map asciiToLower

/-- Rules 1 and 2 of the source: the palindrome rule sets
`is_palindrome = true`, the single/one-word rule sets `word_count = 1`. -/
def applyEarlyRules (text : List Char) : ParsedFilter :=
  { is_palindrome := if matchPalindrom text then some true else none
    word_count := if matchSingleWord text then some 1 else none }

/-- Explicit word-count rule with its conflict check: a truthy existing
`word_count` different from the parsed value throws; otherwise the parsed
value is assigned. -/
def applyWordCountRule (text : List Char) (f : ParsedFilter) :
    Except ParseError ParsedFilter :=
  match findWordNum text with
  | none => .ok f
  | some n =>
    match f.word_count with
    | some w =>
      if w ≠ 0 ∧ w ≠ n then .error .wordCountConflict
      else .ok { f with word_count := some n }
    | none => .ok { f with word_count := some n }

/-- Length rules: `longer than N` gives `min_length = N + 1`, `shorter
than N` gives `max_length = N - 1`, and the exact rule `N char(s)` sets
both bounds to `N` only when neither of the other two matched. -/
def applyLengthRules (text : List Char) (f : ParsedFilter) : ParsedFilter :=
  let longer := findNumAfterLit longerThanLit text
  let shorter := findNumAfterLit shorterThanLit text
  let exact := if longer.isNone && shorter.isNone then findExactChars text
               else none
  let minv : Option Int :=
    match longer, exact with
    | some n, _ => some ((n : Int) + 1)
    | none, some n => some (n : Int)
    | none, none => none
  let maxv : Option Int :=
    match shorter, exact with
    | some n, _ => some ((n : Int) - 1)
    | none, some n => some (n : Int)
    | none, none => none
  { f with
    min_length := match minv with | some v => some v | none => f.min_length
    max_length := match maxv with | some v => some v | none => f.max_length }

/-- Contains-character rules: the vowel heuristic contributes a
provisional `'a'`, then an explicit character match overrides it. -/
def applyContainsRules (text : List Char) (f : ParsedFilter) : ParsedFilter :=
  let afterVowel :=
    if hasFirstVowelPhrase text then some 'a' else f.contains_character
  { f with
    contains_character :=
      match findContainsChar text with
      | some c => some c
      | none => afterVowel }

/-- Emptiness test `Object.keys(filters).length === 0`. -/
def filterIsEmpty (f : ParsedFilter) : Bool :=
  f.is_palindrome.isNone && f.word_count.isNone && f.min_length.isNone &&
  f.max_length.isNone && f.contains_character.isNone

/-- Whole-object consistency check of the source: when both bounds are
present and `min_length > max_length`, fail; otherwise pass the filter
through unchanged. -/
def validateFilter (f : ParsedFilter) : Except ParseError ParsedFilter :=
  match f.min_length, f.max_length with
  | some mn, some mx =>
    if mn > mx then .error .infeasibleRange else .ok f
  | _, _ => .ok f

/-- The parser `parseNaturalLanguageQuery` of `src/parsers/nlParser.js`:
reject the empty phrase, case-fold, run the rules in source order (the
word-count rule may throw a conflict), reject an empty filter, validate
the length range, and return the original phrase with the filters. -/
def parseNaturalLanguageQuery (raw : String) :
    Except ParseError InterpretResult :=
  if raw.toList.isEmpty then .error .emptyQuery
  else
    match applyWordCountRule (lowerText raw) (applyEarlyRules (lowerText raw)) with
    | .error e => .error e
    | .ok f2 =>
      if filterIsEmpty
          (applyContainsRules (lowerText raw) (applyLengthRules (lowerText raw) f2))
      then .error .unparseable
      else
        match validateFilter
            (applyContainsRules (lowerText raw) (applyLengthRules (lowerText raw) f2)) with
        | .error e => .error e
        | .ok f => .ok { original := raw, parsed_filters := f }

/-! ### Analysis engine: UTF-16 string model -/

/-- High surrogate range `0xD800–0xDBFF`. -/
def isHighSurrogate (u : Nat) : Bool := 0xD800 ≤ u && u ≤ 0xDBFF

/-- Low surrogate range `0xDC00–0xDFFF`. -/
def isLowSurrogate (u : Nat) : Bool := 0xDC00 ≤ u && u ≤ 0xDFFF

/-- Code point encoded by a surrogate pair. -/
def combineSurrogates (hi lo : Nat) : Nat :=
  0x10000 + (hi - 0xD800) * 0x400 + (lo - 0xDC00)

/-- The ECMAScript string iterator (used by `Array.from` and `for..of`):
walk the UTF-16 code units, pairing a high surrogate with an immediately
following low surrogate into one code point and passing every other unit
through unchanged. -/
def codePoints : List Nat → List Nat
  | [] => []
  | [u] => [u]
  | u :: v :: rest =>
    if isHighSurrogate u && isLowSurrogate v then
      combineSurrogates u v :: codePoints rest
    else u :: codePoints (v :: rest)

/-- UTF-16 encoding of one code point: itself below `0x10000`, a
surrogate pair above. -/
def utf16EncodeChar (c : Nat) : List Nat :=
  if c < 0x10000 then [c]
  else [0xD800 + (c - 0x10000) / 0x400, 0xDC00 + (c - 0x10000) % 0x400]

/-- UTF-16 encoding of a code-point sequence into code units. -/
def utf16Encode : List Nat → List Nat
  | [] => []
  | c :: cs => utf16EncodeChar c ++ utf16Encode cs

/-- Unicode scalar value: a code point that is not a surrogate. -/
def IsScalar (c : Nat) : Prop := c < 0x110000 ∧ (c < 0xD800 ∨ 0xDFFF < c)

instance (c : Nat) : Decidable (IsScalar c) := by
  unfold IsScalar; infer_instance

/-- Code points of a Lean string literal, used to write concrete JS
strings in the theorems. -/
def strCps (s : String) : List Nat := s.toList.map Char.toNat

/-! ### Analysis engine: per-field computations (`src/analyze.js`) -/

/-- Case folding of one code point, modelling the JavaScript
`String.prototype.toLowerCase` built-in restricted to the simple ASCII
case mapping (`A–Z` to `a–z`); the only normalization the analyzer ever
applies. -/
def toLowerCp (c : Nat) : Nat := if 65 ≤ c ∧ c ≤ 90 then c + 32 else c

/-- The string `value.toLowerCase()` as a unit list. -/
def jsToLowerCaseUnits (s : List Nat) : List Nat :=
  utf16Encode ((codePoints s).map toLowerCp)

/-- The source's `computeIsPalindrome`: lowercase the value, reverse its
code-point sequence (`Array.from(lower).reverse().join("")`), and compare
the two strings. -/
def computeIsPalindrome (value : List Nat) : Bool :=
  let lower := jsToLowerCaseUnits value
  let reversed := utf16Encode ((codePoints lower).reverse)
  lower == reversed

/-- Whitespace class used by `trim` and `/\s+/` in `computeWordCount`,
modelling the common subset of the JavaScript class (ASCII whitespace,
no-break space, BOM). -/
def isJsSpaceCp (c : Nat) : Bool :=
  c == 32 || c == 9 || c == 10 || c == 13 || c == 11 || c == 12 ||
  c == 0xA0 || c == 0xFEFF

/-- Count of maximal non-whitespace runs; the boolean records whether the
previous code point belonged to a run. -/
def countRunsAux : Bool → List Nat → Nat
  | _, [] => 0
  | inWord, c :: rest =>
    if isJsSpaceCp c then countRunsAux false rest
    else (if inWord then 0 else 1) + countRunsAux true rest

/-- Leading- and trailing-whitespace trim on the code-point sequence. -/
def trimCps (cps : List Nat) : List Nat :=
  ((cps.dropWhile isJsSpaceCp).reverse.dropWhile isJsSpaceCp).reverse

/-- The source's `computeWordCount`: trim, return 0 when empty, otherwise
count the segments produced by splitting on whitespace runs. -/
def computeWordCount (value : List Nat) : Nat :=
  let trimmed := trimCps (codePoints value)
  if trimmed.isEmpty then 0 else countRunsAux false trimmed

/-- One step of the frequency tally `map[ch] = (map[ch] || 0) + 1` on an
association list that keeps JavaScript's key insertion order. -/
def freqInsert (m : List (Nat × Nat)) (c : Nat) : List (Nat × Nat) :=
  match m with
  | [] => [(c, 1)]
  | (k, v) :: rest =>
    if k = c then (k, v + 1) :: rest else (k, v) :: freqInsert rest c

/-- The source's `computeCharacterFrequencyMap`: one pass over the
code-point sequence (`for (const ch of value)`). -/
def computeCharacterFrequencyMap (value : List Nat) : List (Nat × Nat) :=
  (codePoints value).foldl freqInsert []

/-- First-occurrence insertion of `new Set(...)`. -/
def insertUnique (l : List Nat) (c : Nat) : List Nat :=
  if c ∈ l then l else l ++ [c]

/-- The source's `computeUniqueCharactersAndArray`:
`new Set(Array.from(value))`, returning the set's size and its elements
in insertion order. -/
def computeUniqueCharactersAndArray (value : List Nat) : Nat × List Nat :=
  let arr := (codePoints value).foldl insertUnique []
  (arr.length, arr)

/-! ### Analysis engine: SHA-256 (`crypto.createHash("sha256")`) -/

/-- UTF-8 bytes of one code point; Node's utf8 encoder replaces a lone
surrogate with U+FFFD. -/
def utf8EncodeCp (cp : Nat) : List Nat :=
  let c := if 0xD800 ≤ cp ∧ cp ≤ 0xDFFF then 0xFFFD else cp
  if c < 0x80 then [c]
  else if c < 0x800 then [0xC0 + c / 0x40, 0x80 + c % 0x40]
  else if c < 0x10000 then
    [0xE0 + c / 0x1000, 0x80 + c / 0x40 % 0x40, 0x80 + c % 0x40]
  else
    [0xF0 + c / 0x40000, 0x80 + c / 0x1000 % 0x40, 0x80 + c / 0x40 % 0x40,
     0x80 + c % 0x40]

/-- UTF-8 byte representation of the string, the input that
`hash.update(value, "utf8")` digests. -/
def utf8Encode (value : List Nat) : List Nat :=
  ((codePoints value).map utf8EncodeCp).flatten

/-- Truncation to a 32-bit word. -/
def w32 (n : Nat) : Nat := n % 4294967296

/-- Rotation of a 32-bit word to the right by n bits. -/
def rotr (n x : Nat) : Nat := w32 (x / 2 ^ n + x % 2 ^ n * 2 ^ (32 - n))

/-- Bitwise complement of a 32-bit word. -/
def bnot32 (x : Nat) : Nat := 4294967295 - w32 x

/-- SHA-256 Σ0. -/
def bigSigma0 (x : Nat) : Nat := rotr 2 x ^^^ rotr 13 x ^^^ rotr 22 x

/-- SHA-256 Σ1. -/
def bigSigma1 (x : Nat) : Nat := rotr 6 x ^^^ rotr 11 x ^^^ rotr 25 x

/-- SHA-256 σ0. -/
def smallSigma0 (x : Nat) : Nat := rotr 7 x ^^^ rotr 18 x ^^^ x / 2 ^ 3

/-- SHA-256 σ1. -/
def smallSigma1 (x : Nat) : Nat := rotr 17 x ^^^ rotr 19 x ^^^ x / 2 ^ 10

/-- SHA-256 choice function. -/
def shaCh (x y z : Nat) : Nat := (x &&& y) ^^^ (bnot32 x &&& z)

/-- SHA-256 majority function. -/
def shaMaj (x y z : Nat) : Nat := (x &&& y) ^^^ (x &&& z) ^^^ (y &&& z)

/-- SHA-256 round constants (FIPS 180-4), written in decimal. -/
def K256 : List Nat :=
  [1116352408, 1899447441, 3049323471,
   3921009573, 961987163, 1508970993,
   2453635748, 2870763221, 3624381080,
   310598401, 607225278, 1426881987,
   1925078388, 2162078206, 2614888103,
   3248222580, 3835390401, 4022224774,
   264347078, 604807628, 770255983,
   1249150122, 1555081692, 1996064986,
   2554220882, 2821834349, 2952996808,
   3210313671, 3336571891, 3584528711,
   113926993, 338241895, 666307205,
   773529912, 1294757372, 1396182291,
   1695183700, 1986661051, 2177026350,
   2456956037, 2730485921, 2820302411,
   3259730800, 3345764771, 3516065817,
   3600352804, 4094571909, 275423344,
   430227734, 506948616, 659060556,
   883997877, 958139571, 1322822218,
   1537002063, 1747873779, 1955562222,
   2024104815, 2227730452, 2361852424,
   2428436474, 2756734187, 3204031479,
   3329325298]

/-- Working state of the compression function. -/
structure Sha256State where
  a : Nat
  b : Nat
  c : Nat
  d : Nat
  e : Nat
  f : Nat
  g : Nat
  h : Nat

/-- Initial hash value H0. -/
def shaInit : Sha256State :=
  ⟨1779033703, 3144134277, 1013904242, 2773480762,
   1359893119, 2600822924, 528734635, 1541459225⟩

/-- One round of the compression function, applied to a schedule word
paired with its round constant. -/
def compressRound (st : Sha256State) (wk : Nat × Nat) : Sha256State :=
  let t1 := w32 (st.h + bigSigma1 st.e + shaCh st.e st.f st.g + wk.2 + wk.1)
  let t2 := w32 (bigSigma0 st.a + shaMaj st.a st.b st.c)
  ⟨w32 (t1 + t2), st.a, st.b, st.c, w32 (st.d + t1), st.e, st.f, st.g⟩

/-- Big-endian 32-bit words of a chunk's 64 bytes. -/
def wordsOfChunk : List Nat → List Nat
  | b0 :: b1 :: b2 :: b3 :: rest =>
    (b0 * 0x1000000 + b1 * 0x10000 + b2 * 0x100 + b3) :: wordsOfChunk rest
  | _ => []

/-- Extension of the 16 chunk words to the full 64-entry message
schedule. -/
def extendSchedule (ws : List Nat) : Nat → List Nat
  | 0 => ws
  | k + 1 =>
    extendSchedule
      (ws ++ [w32 (smallSigma1 (ws.getD (ws.length - 2) 0) +
                   ws.getD (ws.length - 7) 0 +
                   smallSigma0 (ws.getD (ws.length - 15) 0) +
                   ws.getD (ws.length - 16) 0)]) k

/-- Processing of one 64-byte chunk: 64 compression rounds, then addition
into the incoming state. -/
def processChunk (st : Sha256State) (chunk : List Nat) : Sha256State :=
  let ws := extendSchedule (wordsOfChunk chunk) 48
  let e := (ws.zip K256).foldl compressRound st
  ⟨w32 (st.a + e.a), w32 (st.b + e.b), w32 (st.c + e.c), w32 (st.d + e.d),
   w32 (st.e + e.e), w32 (st.f + e.f), w32 (st.g + e.g), w32 (st.h + e.h)⟩

/-- Big-endian bytes of a 32-bit word. -/
def wordBytes (w : Nat) : List Nat :=
  [w / 0x1000000 % 256, w / 0x10000 % 256, w / 0x100 % 256, w % 256]

/-- Big-endian 8-byte encoding of the bit length. -/
def lenBytes8 (bl : Nat) : List Nat :=
  [bl / 2 ^ 56 % 256, bl / 2 ^ 48 % 256, bl / 2 ^ 40 % 256,
   bl / 2 ^ 32 % 256, bl / 2 ^ 24 % 256, bl / 2 ^ 16 % 256,
   bl / 2 ^ 8 % 256, bl % 256]

/-- SHA-256 padding: the `0x80` byte, zeros to 56 mod 64, and the 64-bit
big-endian message bit length. -/
def padMessage (msg : List Nat) : List Nat :=
  let zeros := (64 + 56 - (msg.length + 1) % 64) % 64
  msg ++ [0x80] ++ List.replicate zeros 0 ++ lenBytes8 (8 * msg.length)

/-- Split of the padded message into 64-byte chunks. -/
def chunks64 : List Nat → List (List Nat)
  | [] => []
  | c :: rest => ((c :: rest).take 64) :: chunks64 ((c :: rest).drop 64)
termination_by l => l.length
decreasing_by simp [List.length_drop]; omega

/-- SHA-256 digest bytes of a byte message. -/
def sha256Bytes (msg : List Nat) : List Nat :=
  let fin := (chunks64 (padMessage msg)).foldl processChunk shaInit
  wordBytes fin.a ++ wordBytes fin.b ++ wordBytes fin.c ++ wordBytes fin.d ++
  wordBytes fin.e ++ wordBytes fin.f ++ wordBytes fin.g ++ wordBytes fin.h

/-- Lowercase hexadecimal digit table used by `digest("hex")`. -/
def hexDigits : List Char := "0123456789abcdef".toList

/-- Lowercase hexadecimal digit characters. -/
def hexDigitChar (n : Nat) : Char := hexDigits.getD n '0'

/-- Two lowercase hex characters of one byte. -/
def byteHex (b : Nat) : List Char :=
  [hexDigitChar (b / 16 % 16), hexDigitChar (b % 16)]

/-- The source's `sha256Hex` on the byte representation:
`digest("hex")` renders the 32 digest bytes as lowercase hexadecimal. -/
def sha256HexOfBytes (msg : List Nat) : String :=
  String.mk ((sha256Bytes msg).map byteHex).flatten

/-- The source's `sha256Hex(value)`: digest of the UTF-8 bytes of the
string. -/
def sha256Hex (value : List Nat) : String :=
  sha256HexOfBytes (utf8Encode value)

/-! ### Analysis engine: the record builder -/

/-- The `properties` object of the analysis record. -/
structure AnalysisProperties where
  length : Nat
  is_palindrome : Bool
  unique_characters : Nat
  word_count : Nat
  character_frequency_map : List (Nat × Nat)
deriving Repr, DecidableEq

/-- The record returned by `analyzeString`.  The `created_at` wall-clock
timestamp is the one side-effecting field of the source and is not part
of the pure model. -/
structure AnalysisRecord where
  id : String
  value : List Nat
  properties : AnalysisProperties
  characters_array : List Nat
deriving Repr, DecidableEq

/-- The source's `analyzeString`: every field computed from the value
exactly as in `src/analyze.js`; `length` is `Array.from(value).length`,
the code-point count. -/
def analyzeString (value : List Nat) : AnalysisRecord :=
  let length := (codePoints value).length
  let is_palindrome := computeIsPalindrome value
  let word_count := computeWordCount value
  let sha256_hash := sha256Hex value
  let character_frequency_map := computeCharacterFrequencyMap value
  let u := computeUniqueCharactersAndArray value
  { id := sha256_hash
    value := value
    properties :=
      { length := length
        is_palindrome := is_palindrome
        unique_characters := u.1
        word_count := word_count
        character_frequency_map := character_frequency_map }
    characters_array := u.2 }

/-! ### Lemmas: UTF-16 round trip -/

/-- Decoding walks past any unit that is not a high surrogate. -/
theorem codePoints_cons_not_high {u : Nat} (l : List Nat)
    (h : isHighSurrogate u = false) :
    codePoints (u :: l) = u :: codePoints l := by
  cases l with
  | nil => rfl
  | cons v rest => simp [codePoints, h]

/-- Decoding combines a surrogate pair. -/
theorem codePoints_cons_pair {u v : Nat} (rest : List Nat)
    (h1 : isHighSurrogate u = true) (h2 : isLowSurrogate v = true) :
    codePoints (u :: v :: rest) = combineSurrogates u v :: codePoints rest := by
  simp [codePoints, h1, h2]

/-- The string iterator inverts UTF-16 encoding on scalar values: the
code-point view of an encoded string is the original sequence. -/
theorem codePoints_utf16Encode (v : List Nat) (h : ∀ c ∈ v, IsScalar c) :
    codePoints (utf16Encode v) = v := by
  induction v with
  | nil => rfl
  | cons c cs ih =>
    have hc : IsScalar c := h c (List.mem_cons_self c cs)
    have hcs : ∀ x ∈ cs, IsScalar x := fun x hx => h x (List.mem_cons_of_mem _ hx)
    show codePoints (utf16EncodeChar c ++ utf16Encode cs) = c :: cs
    by_cases hlt : c < 0x10000
    · have henc : utf16EncodeChar c = [c] := by simp [utf16EncodeChar, hlt]
      have hnh : isHighSurrogate c = false := by
        simp only [isHighSurrogate, Bool.and_eq_false_iff, decide_eq_false_iff_not,
          not_le]
        rcases hc.2 with h2 | h2
        · left; omega
        · right; omega
      rw [henc, List.singleton_append, codePoints_cons_not_high _ hnh, ih hcs]
    · have hge : 0x10000 ≤ c := Nat.not_lt.mp hlt
      have henc : utf16EncodeChar c =
          [0xD800 + (c - 0x10000) / 0x400, 0xDC00 + (c - 0x10000) % 0x400] := by
        simp [utf16EncodeChar, hlt]
      have hh : isHighSurrogate (0xD800 + (c - 0x10000) / 0x400) = true := by
        simp only [isHighSurrogate, Bool.and_eq_true, decide_eq_true_eq]
        have := hc.1
        omega
      have hl : isLowSurrogate (0xDC00 + (c - 0x10000) % 0x400) = true := by
        simp only [isLowSurrogate, Bool.and_eq_true, decide_eq_true_eq]
        have := hc.1
        omega
      have hcomb : combineSurrogates (0xD800 + (c - 0x10000) / 0x400)
          (0xDC00 + (c - 0x10000) % 0x400) = c := by
        have := hc.1
        unfold combineSurrogates
        omega
      rw [henc, List.cons_append, List.cons_append, List.nil_append,
        codePoints_cons_pair _ hh hl, hcomb, ih hcs]

/-- UTF-16 encoding is injective on scalar sequences. -/
theorem utf16Encode_inj {a b : List Nat} (ha : ∀ c ∈ a, IsScalar c)
    (hb : ∀ c ∈ b, IsScalar c) (h : utf16Encode a = utf16Encode b) : a = b := by
  rw [← codePoints_utf16Encode a ha, ← codePoints_utf16Encode b hb, h]

/-- ASCII case folding never leaves the scalar range. -/
theorem toLowerCp_scalar (c : Nat) (h : IsScalar c) : IsScalar (toLowerCp c) := by
  unfold IsScalar toLowerCp at *
  split_ifs <;> omega

/-- The palindrome computation on an encoded scalar sequence compares the
case-folded code-point sequence with its reverse. -/
theorem computeIsPalindrome_encode (v : List Nat) (h : ∀ c ∈ v, IsScalar c) :
    computeIsPalindrome (utf16Encode v) = true ↔
      v.map toLowerCp = (v.map toLowerCp).reverse := by
  have hsc : ∀ c ∈ v.map toLowerCp, IsScalar c := by
    intro c hc
    rcases List.mem_map.mp hc with ⟨a, ha, rfl⟩
    exact toLowerCp_scalar _ (h a ha)
  have hscr : ∀ c ∈ (v.map toLowerCp).reverse, IsScalar c := by
    intro c hc
    exact hsc c (List.mem_reverse.mp hc)
  simp only [computeIsPalindrome, jsToLowerCaseUnits]
  rw [codePoints_utf16Encode v h, codePoints_utf16Encode _ hsc, beq_iff_eq]
  constructor
  · exact fun he => utf16Encode_inj hsc hscr he
  · exact fun he => by rw [← he]

/-! ### Lemmas: frequency map totals -/

/-- One tally step adds exactly one to the total count. -/
theorem freqSum_freqInsert (m : List (Nat × Nat)) (c : Nat) :
    ((freqInsert m c).map Prod.snd).sum = (m.map Prod.snd).sum + 1 := by
  induction m with
  | nil => rfl
  | cons p rest ih =>
    obtain ⟨k, v⟩ := p
    unfold freqInsert
    split_ifs with hk
    · simp only [List.map_cons, List.sum_cons]
      omega
    · simp only [List.map_cons, List.sum_cons, ih]
      omega

/-- Tallying a sequence adds its length to the total count. -/
theorem freqSum_foldl (l : List Nat) : ∀ m : List (Nat × Nat),
    ((l.foldl freqInsert m).map Prod.snd).sum =
      (m.map Prod.snd).sum + l.length := by
  induction l with
  | nil => intro m; simp
  | cons c cs ih =>
    intro m
    simp only [List.foldl_cons, List.length_cons]
    rw [ih (freqInsert m c), freqSum_freqInsert]
    omega

/-! ### Lemmas: hex rendering of the digest -/

/-- Lowercase hexadecimal digit class. -/
def isLowerHexDigit (c : Char) : Bool := c.isDigit || ('a' ≤ c && c ≤ 'f')

/-- Every output of the digit table is a lowercase hex character. -/
theorem hexDigitChar_lowerHex (n : Nat) :
    isLowerHexDigit (hexDigitChar n) = true := by
  unfold hexDigitChar
  rcases Nat.lt_or_ge n 16 with h | h
  · interval_cases n <;> decide
  · rw [List.getD_eq_default]
    · decide
    · simpa [hexDigits] using h

/-- Hex rendering doubles the byte count. -/
theorem flatten_map_byteHex_length (l : List Nat) :
    ((l.map byteHex).flatten).length = 2 * l.length := by
  induction l with
  | nil => rfl
  | cons b bs ih =>
    simp only [List.map_cons, List.flatten_cons, List.length_append, ih,
      List.length_cons, byteHex, List.length_cons, List.length_nil]
    omega

/-- Every character of a hex rendering is a lowercase hex character. -/
theorem all_byteHex_lowerHex (l : List Nat) :
    (((l.map byteHex).flatten).all isLowerHexDigit) = true := by
  induction l with
  | nil => rfl
  | cons b bs ih =>
    simp only [List.map_cons, List.flatten_cons, List.all_append, ih,
      Bool.and_true, byteHex, List.all_cons, List.all_nil,
      hexDigitChar_lowerHex, Bool.and_true]

/-- Length of one rendered word. -/
theorem length_wordBytes (w : Nat) : (wordBytes w).length = 4 := rfl

/-- The digest always has exactly 32 bytes, whatever the message. -/
theorem sha256Bytes_length (msg : List Nat) : (sha256Bytes msg).length = 32 := by
  unfold sha256Bytes
  simp only [List.length_append, length_wordBytes]

/-! ### Claim theorems for the analysis engine -/

/-- Claim C2: for every string `v`, `analyze(v).length` equals the number
of Unicode code points of `v`, not the number of UTF-16 storage units; in
particular `analyze("")` has length 0 and `analyze("a👍b")` has length 3
although its storage encoding has 4 units. -/
theorem c2_length_code_points :
    (∀ v : List Nat, (∀ c ∈ v, IsScalar c) →
      (analyzeString (utf16Encode v)).properties.length = v.length) ∧
    (analyzeString (utf16Encode (strCps ""))).properties.length = 0 ∧
    (analyzeString (utf16Encode (strCps "a👍b"))).properties.length = 3 ∧
    (utf16Encode (strCps "a👍b")).length = 4 := by
  refine ⟨?_, by decide, by decide, by decide⟩
  intro v hv
  show (codePoints (utf16Encode v)).length = v.length
  rw [codePoints_utf16Encode v hv]

/-- Witness for C2: the universal part applied to the concrete code-point
sequence of `"a👍b"`, whose scalar-value hypothesis is discharged by
computation. -/
theorem c2_length_witness :
    (analyzeString (utf16Encode (strCps "a👍b"))).properties.length =
      (strCps "a👍b").length :=
  c2_length_code_points.1 (strCps "a👍b") (by decide)

/-- Claim C3: `analyze(v).is_palindrome` holds exactly when the
case-folded code-point sequence of `v` equals its reverse, with nothing
stripped; in particular `"Racecar"` is a palindrome and `"race car"` is
not. -/
theorem c3_palindrome_casefold :
    (∀ v : List Nat, (∀ c ∈ v, IsScalar c) →
      ((analyzeString (utf16Encode v)).properties.is_palindrome = true ↔
        v.map toLowerCp = (v.map toLowerCp).reverse)) ∧
    (analyzeString (utf16Encode (strCps "Racecar"))).properties.is_palindrome
      = true ∧
    (analyzeString (utf16Encode (strCps "race car"))).properties.is_palindrome
      = false := by
  refine ⟨?_, by decide, by decide⟩
  intro v hv
  show computeIsPalindrome (utf16Encode v) = true ↔ _
  exact computeIsPalindrome_encode v hv

/-- Witness for C3: the equivalence applied to `"Racecar"`, both sides
evaluated. -/
theorem c3_palindrome_witness :
    (strCps "Racecar").map toLowerCp =
      ((strCps "Racecar").map toLowerCp).reverse :=
  (c3_palindrome_casefold.1 (strCps "Racecar") (by decide)).mp (by decide)

/-- Claim C7: for every string, the values of the character frequency map
sum to the length (every code point is accounted for exactly once in
total), and the distinct-character array has exactly
`unique_character_count` entries. -/
theorem c7_frequency_completeness (s : List Nat) :
    (((analyzeString s).properties.character_frequency_map.map Prod.snd).sum =
      (analyzeString s).properties.length) ∧
    (analyzeString s).characters_array.length =
      (analyzeString s).properties.unique_characters := by
  constructor
  · show ((computeCharacterFrequencyMap s).map Prod.snd).sum =
      (codePoints s).length
    unfold computeCharacterFrequencyMap
    simpa using freqSum_foldl (codePoints s) []
  · rfl

/-- Claim C8: the record's `id` is the SHA-256 digest of the exact UTF-8
byte representation of the value — a pure function of the value alone,
definitionally deterministic in this embedding — rendered as exactly 64
lowercase hexadecimal characters. -/
theorem c8_id_content_hash (s : List Nat) :
    (analyzeString s).id = sha256HexOfBytes (utf8Encode s) ∧
    (analyzeString s).id.length = 64 ∧
    ((analyzeString s).id.toList.all isLowerHexDigit) = true := by
  refine ⟨rfl, ?_, ?_⟩
  · show (((sha256Bytes (utf8Encode s)).map byteHex).flatten).length = 64
    rw [flatten_map_byteHex_length, sha256Bytes_length]
  · show (((sha256Bytes (utf8Encode s)).map byteHex).flatten).all
      isLowerHexDigit = true
    exact all_byteHex_lowerHex _

/-! ### Lemmas: parser pipeline structure -/

/-- Field view of the early rules. -/
theorem applyEarlyRules_pal (t : List Char) :
    (applyEarlyRules t).is_palindrome =
      if matchPalindrom t then some true else none := rfl

/-- Field view of the early rules. -/
theorem applyEarlyRules_wc (t : List Char) :
    (applyEarlyRules t).word_count =
      if matchSingleWord t then some 1 else none := rfl

/-- The early rules never set a length bound. -/
theorem applyEarlyRules_min (t : List Char) :
    (applyEarlyRules t).min_length = none := rfl

/-- The early rules never set a length bound. -/
theorem applyEarlyRules_max (t : List Char) :
    (applyEarlyRules t).max_length = none := rfl

/-- A successful word-count rule only ever touches the `word_count`
field. -/
theorem applyWordCountRule_ok_inv {t : List Char} {f f' : ParsedFilter}
    (h : applyWordCountRule t f = .ok f') :
    ∃ wc, f' = { f with word_count := wc } := by
  unfold applyWordCountRule at h
  split at h
  · refine ⟨f.word_count, ?_⟩
    simp only [Except.ok.injEq] at h
    rw [← h]
  · split at h
    · split at h
      · exact absurd h (by simp)
      · simp only [Except.ok.injEq] at h
        exact ⟨_, h.symm⟩
    · simp only [Except.ok.injEq] at h
      exact ⟨_, h.symm⟩

/-- Fields preserved by a successful word-count rule. -/
theorem applyWordCountRule_ok_fields {t : List Char} {f f' : ParsedFilter}
    (h : applyWordCountRule t f = .ok f') :
    f'.is_palindrome = f.is_palindrome ∧ f'.min_length = f.min_length ∧
      f'.max_length = f.max_length := by
  obtain ⟨wc, rfl⟩ := applyWordCountRule_ok_inv h
  exact ⟨rfl, rfl, rfl⟩

/-- A successful word-count rule in the presence of a first match always
records that first match's value, whatever the provisional state. -/
theorem applyWordCountRule_ok_some {t : List Char} {f f' : ParsedFilter}
    {n : Nat} (h : applyWordCountRule t f = .ok f')
    (hn : findWordNum t = some n) : f'.word_count = some n := by
  unfold applyWordCountRule at h
  simp only [hn] at h
  split at h
  · split at h
    · exact absurd h (by simp)
    · simp only [Except.ok.injEq] at h
      rw [← h]
  · simp only [Except.ok.injEq] at h
    rw [← h]

/-- The only error validation can produce is the infeasible range. -/
theorem validateFilter_error {f : ParsedFilter} {e : ParseError}
    (h : validateFilter f = .error e) : e = .infeasibleRange := by
  unfold validateFilter at h
  split at h
  · split at h
    · simp only [Except.error.injEq] at h
      exact h.symm
    · exact absurd h (by simp)
  · exact absurd h (by simp)

/-- The length rules never touch the palindrome field. -/
theorem applyLengthRules_pal (t : List Char) (f : ParsedFilter) :
    (applyLengthRules t f).is_palindrome = f.is_palindrome := rfl

/-- The length rules never touch the word-count field. -/
theorem applyLengthRules_wc (t : List Char) (f : ParsedFilter) :
    (applyLengthRules t f).word_count = f.word_count := rfl

/-- A Longer-than match forces `min_length = N + 1`. -/
theorem applyLengthRules_min_longer {t : List Char} {n : Nat}
    (f : ParsedFilter) (h : findNumAfterLit longerThanLit t = some n) :
    (applyLengthRules t f).min_length = some ((n : Int) + 1) := by
  simp only [applyLengthRules, h]

/-- A Shorter-than match forces `max_length = N - 1`. -/
theorem applyLengthRules_max_shorter {t : List Char} {n : Nat}
    (f : ParsedFilter) (h : findNumAfterLit shorterThanLit t = some n) :
    (applyLengthRules t f).max_length = some ((n : Int) - 1) := by
  simp only [applyLengthRules, h]

/-- The contains rules never touch the palindrome field. -/
theorem applyContainsRules_pal (t : List Char) (f : ParsedFilter) :
    (applyContainsRules t f).is_palindrome = f.is_palindrome := rfl

/-- The contains rules never touch the word-count field. -/
theorem applyContainsRules_wc (t : List Char) (f : ParsedFilter) :
    (applyContainsRules t f).word_count = f.word_count := rfl

/-- The contains rules never touch the length bounds. -/
theorem applyContainsRules_min (t : List Char) (f : ParsedFilter) :
    (applyContainsRules t f).min_length = f.min_length := rfl

/-- The contains rules never touch the length bounds. -/
theorem applyContainsRules_max (t : List Char) (f : ParsedFilter) :
    (applyContainsRules t f).max_length = f.max_length := rfl

/-- Validation is the identity whenever it succeeds. -/
theorem validateFilter_ok {f f' : ParsedFilter}
    (h : validateFilter f = .ok f') : f' = f := by
  unfold validateFilter at h
  split at h
  · split at h
    · exact absurd h (by simp)
    · simp only [Except.ok.injEq] at h
      exact h.symm
  · simp only [Except.ok.injEq] at h
    exact h.symm

/-- Inversion of a successful parse: the word-count stage succeeded on
the early-rule filter, and the returned filters are exactly the output of
the remaining (pure) rule stages on its result. -/
theorem parse_ok_structure {raw : String} {r : InterpretResult}
    (h : parseNaturalLanguageQuery raw = .ok r) :
    ∃ f2, applyWordCountRule (lowerText raw) (applyEarlyRules (lowerText raw))
        = .ok f2 ∧
      r.parsed_filters =
        applyContainsRules (lowerText raw) (applyLengthRules (lowerText raw) f2) ∧
      r.original = raw := by
  unfold parseNaturalLanguageQuery at h
  split at h
  · exact absurd h (by simp)
  · split at h
    · exact absurd h (by simp)
    · next f2 heq =>
      split at h
      · exact absurd h (by simp)
      · split at h
        · exact absurd h (by simp)
        · next f hval =>
          refine ⟨f2, heq, ?_, ?_⟩
          · simp only [Except.ok.injEq] at h
            rw [← h, validateFilter_ok hval]
          · simp only [Except.ok.injEq] at h
            rw [← h]

/-! ### Claim theorems for the query interpreter -/

/-- Claim C1 counterexample: two explicit word-count assertions that
disagree do **not** fail with a conflict — `text.match` reads only the
first `N word(s)` occurrence, so the phrase parses successfully with
`word_count = 2` silently taken from the first assertion. -/
theorem c1_counterexample :
    parseNaturalLanguageQuery "exactly 2 words and 3 words" =
      .ok { original := "exactly 2 words and 3 words",
            parsed_filters := { word_count := some 2 } } := by decide

/-- Claim C1 as amended, both directions: on every successful parse the
recorded word count is the value of the first `N word(s)` occurrence —
later explicit assertions are invisible to the non-global regex, so two
explicit assertions are never compared and the first silently wins — and
the word-count conflict is raised exactly when (if and only if) the
single/one-word rule has set the provisional value 1 and the first
explicit match reads a different number. -/
theorem c1_word_count_conflict :
    (∀ (raw : String) (r : InterpretResult) (n : Nat),
      parseNaturalLanguageQuery raw = .ok r →
      findWordNum (lowerText raw) = some n →
      r.parsed_filters.word_count = some n) ∧
    (∀ raw : String,
      parseNaturalLanguageQuery raw = .error .wordCountConflict ↔
        matchSingleWord (lowerText raw) = true ∧
        ∃ n, findWordNum (lowerText raw) = some n ∧ n ≠ 1) := by
  constructor
  · intro raw r n h hfw
    obtain ⟨f2, heq, hpf, _⟩ := parse_ok_structure h
    rw [hpf, applyContainsRules_wc, applyLengthRules_wc,
      applyWordCountRule_ok_some heq hfw]
  · intro raw
    constructor
    · intro h
      unfold parseNaturalLanguageQuery at h
      split at h
      · exact absurd h (by decide)
      · split at h
        · next e heq =>
          simp only [Except.error.injEq] at h
          subst h
          unfold applyWordCountRule at heq
          split at heq
          · exact absurd heq (by simp)
          · next n hfw =>
            split at heq
            · next w hw =>
              split at heq
              · next hcond =>
                rw [applyEarlyRules_wc] at hw
                by_cases hsw : matchSingleWord (lowerText raw) = true
                · refine ⟨hsw, n, hfw, ?_⟩
                  rw [if_pos hsw] at hw
                  simp only [Option.some.injEq] at hw
                  have h2 := hcond.2
                  omega
                · rw [if_neg hsw] at hw
                  exact absurd hw (by simp)
              · exact absurd heq (by simp)
            · exact absurd heq (by simp)
        · split at h
          · exact absurd h (by decide)
          · split at h
            · next e hval =>
              have he := validateFilter_error hval
              subst he
              exact absurd h (by decide)
            · exact absurd h (by simp)
    · rintro ⟨hsw, n, hfw, hn⟩
      have hraw : raw.toList.isEmpty = false := by
        cases hE : raw.toList.isEmpty
        · rfl
        · exfalso
          have h0 : raw.toList = [] := by
            simpa using hE
          rw [lowerText, h0] at hsw
          simp [matchSingleWord, matchSingleWordFrom] at hsw
      have hstep : applyWordCountRule (lowerText raw)
          (applyEarlyRules (lowerText raw)) = .error .wordCountConflict := by
        have hwc : (applyEarlyRules (lowerText raw)).word_count = some 1 := by
          rw [applyEarlyRules_wc, if_pos hsw]
        have hne : (1 : Nat) ≠ 0 ∧ (1 : Nat) ≠ n :=
          ⟨one_ne_zero, fun he => hn he.symm⟩
        unfold applyWordCountRule
        simp only [hfw, hwc]
        rw [if_pos hne]
      unfold parseNaturalLanguageQuery
      rw [hraw]
      simp only [Bool.false_eq_true, if_false, hstep]

/-- Witness for the amended C1: the first-match rule applied to the
two-assertions phrase, and the conflict characterisation applied (right
to left) to a phrase where the single-word rule and an explicit count of
3 disagree, every hypothesis discharged by computation. -/
theorem c1_word_count_witness :
    ({ original := "exactly 2 words and 3 words",
       parsed_filters := { word_count := some 2 } } :
        InterpretResult).parsed_filters.word_count = some 2 ∧
    parseNaturalLanguageQuery "single word strings with exactly 3 words" =
      .error .wordCountConflict :=
  ⟨c1_word_count_conflict.1 "exactly 2 words and 3 words"
      { original := "exactly 2 words and 3 words",
        parsed_filters := { word_count := some 2 } } 2 (by decide) (by decide),
   (c1_word_count_conflict.2 "single word strings with exactly 3 words").mpr
      ⟨by decide, 3, by decide, by decide⟩⟩

/-- Claim C4: the Exact-length rule fires for `N char(s)` but its regex
`/\b(\d+)\s+chars?\b/` cannot match the word `characters`, contradicting
both the rule table and the source's own comment: a phrase written with
`characters` matches no rule at all and fails as unparseable, while the
same phrase with `chars` yields `min_length = max_length = N`. -/
theorem c4_exact_length_bug :
    parseNaturalLanguageQuery "strings with 10 characters" =
      .error .unparseable ∧
    parseNaturalLanguageQuery "strings with 10 chars" =
      .ok { original := "strings with 10 chars",
            parsed_filters := { min_length := some 10, max_length := some 10 } } :=
  ⟨by decide, by decide⟩

/-- Claim C5: every successful parse of a phrase whose case-folded text
contains `longer than N` carries `min_length = N + 1`, and `shorter than
N` carries `max_length = N - 1`; the two example phrases round-trip to
exactly `{min_length: 11}` and `{max_length: 9}`. -/
theorem c5_range_rules :
    (∀ (raw : String) (r : InterpretResult) (n : Nat),
      parseNaturalLanguageQuery raw = .ok r →
      findNumAfterLit longerThanLit (lowerText raw) = some n →
      r.parsed_filters.min_length = some ((n : Int) + 1)) ∧
    (∀ (raw : String) (r : InterpretResult) (n : Nat),
      parseNaturalLanguageQuery raw = .ok r →
      findNumAfterLit shorterThanLit (lowerText raw) = some n →
      r.parsed_filters.max_length = some ((n : Int) - 1)) ∧
    parseNaturalLanguageQuery "strings longer than 10 characters" =
      .ok { original := "strings longer than 10 characters",
            parsed_filters := { min_length := some 11 } } ∧
    parseNaturalLanguageQuery "strings shorter than 10 characters" =
      .ok { original := "strings shorter than 10 characters",
            parsed_filters := { max_length := some 9 } } := by
  refine ⟨?_, ?_, by decide, by decide⟩
  · intro raw r n h hl
    obtain ⟨f2, _, hpf, _⟩ := parse_ok_structure h
    rw [hpf, applyContainsRules_min, applyLengthRules_min_longer _ hl]
  · intro raw r n h hs
    obtain ⟨f2, _, hpf, _⟩ := parse_ok_structure h
    rw [hpf, applyContainsRules_max, applyLengthRules_max_shorter _ hs]

/-- Witness for C5: both universal parts applied to the two example
phrases, all hypotheses discharged by computation. -/
theorem c5_range_witness :
    ({ original := "strings longer than 10 characters",
       parsed_filters := { min_length := some 11 } } :
        InterpretResult).parsed_filters.min_length = some ((10 : Int) + 1) ∧
    ({ original := "strings shorter than 10 characters",
       parsed_filters := { max_length := some 9 } } :
        InterpretResult).parsed_filters.max_length = some ((10 : Int) - 1) :=
  ⟨c5_range_rules.1 "strings longer than 10 characters"
      { original := "strings longer than 10 characters",
        parsed_filters := { min_length := some 11 } } 10 (by decide) (by decide),
   c5_range_rules.2.1 "strings shorter than 10 characters"
      { original := "strings shorter than 10 characters",
        parsed_filters := { max_length := some 9 } } 10 (by decide) (by decide)⟩

/-- Claim C6: validation fails with the infeasible-range error exactly on
filters carrying both bounds with `min_length > max_length`, returns
every other filter unchanged, and the error surfaces on a phrase implying
`min_length = 11` and `max_length = 5`. -/
theorem c6_infeasible_range :
    (∀ (f : ParsedFilter) (mn mx : Int), f.min_length = some mn →
      f.max_length = some mx → mn > mx →
      validateFilter f = .error .infeasibleRange) ∧
    (∀ f : ParsedFilter,
      (∀ mn mx : Int, f.min_length = some mn → f.max_length = some mx →
        mn ≤ mx) →
      validateFilter f = .ok f) ∧
    parseNaturalLanguageQuery
        "strings longer than 10 and shorter than 6 characters" =
      .error .infeasibleRange := by
  refine ⟨?_, ?_, by decide⟩
  · intro f mn mx h1 h2 h3
    unfold validateFilter
    simp only [h1, h2]
    rw [if_pos h3]
  · intro f hle
    unfold validateFilter
    split
    · next mn mx h1 h2 =>
      rw [if_neg (not_lt.mpr (hle mn mx h1 h2))]
    · rfl

/-- Witness for C6: both universal parts applied to concrete filters. -/
theorem c6_infeasible_witness :
    validateFilter { min_length := some 11, max_length := some 5 } =
      .error .infeasibleRange ∧
    validateFilter { max_length := some (-1) } =
      .ok { max_length := some (-1) } :=
  ⟨c6_infeasible_range.1 _ 11 5 rfl rfl (by decide),
   c6_infeasible_range.2.1 _ (by intro mn mx h1 h2; cases h1)⟩

/-- Claim C9: whenever the case-folded phrase matches `\bpalindrom` —
including negated phrasings such as `not palindromic strings` — a
successful parse carries `is_palindrome = true`, and no parse ever
produces `is_palindrome = false`, the grammar having no negation rule. -/
theorem c9_palindrome_rule :
    (∀ (raw : String) (r : InterpretResult),
      parseNaturalLanguageQuery raw = .ok r →
      matchPalindrom (lowerText raw) = true →
      r.parsed_filters.is_palindrome = some true) ∧
    (∀ (raw : String) (r : InterpretResult),
      parseNaturalLanguageQuery raw = .ok r →
      r.parsed_filters.is_palindrome ≠ some false) ∧
    parseNaturalLanguageQuery "not palindromic strings" =
      .ok { original := "not palindromic strings",
            parsed_filters := { is_palindrome := some true } } := by
  refine ⟨?_, ?_, by decide⟩
  · intro raw r h hp
    obtain ⟨f2, heq, hpf, _⟩ := parse_ok_structure h
    obtain ⟨hp1, _, _⟩ := applyWordCountRule_ok_fields heq
    rw [hpf, applyContainsRules_pal, applyLengthRules_pal, hp1,
      applyEarlyRules_pal, if_pos hp]
  · intro raw r h
    obtain ⟨f2, heq, hpf, _⟩ := parse_ok_structure h
    obtain ⟨hp1, _, _⟩ := applyWordCountRule_ok_fields heq
    rw [hpf, applyContainsRules_pal, applyLengthRules_pal, hp1,
      applyEarlyRules_pal]
    split <;> simp

/-- Witness for C9: both universal parts applied to the negated phrase. -/
theorem c9_palindrome_witness :
    ({ original := "not palindromic strings",
       parsed_filters := { is_palindrome := some true } } :
        InterpretResult).parsed_filters.is_palindrome = some true ∧
    ({ original := "not palindromic strings",
       parsed_filters := { is_palindrome := some true } } :
        InterpretResult).parsed_filters.is_palindrome ≠ some false :=
  ⟨c9_palindrome_rule.1 "not palindromic strings" _ (by decide) (by decide),
   c9_palindrome_rule.2.1 "not palindromic strings" _ (by decide)⟩

/-- Claim C10: non-positive bounds are accepted without error — `strings
shorter than 0 characters` parses to the unsatisfiable `max_length = -1`
— and validation cannot fail when `min_length` is absent. -/
theorem c10_nonpositive_bounds :
    parseNaturalLanguageQuery "strings shorter than 0 characters" =
      .ok { original := "strings shorter than 0 characters",
            parsed_filters := { max_length := some (-1) } } ∧
    (∀ f : ParsedFilter, f.min_length = none → validateFilter f = .ok f) := by
  refine ⟨by decide, ?_⟩
  intro f h
  unfold validateFilter
  split
  · next mn mx h1 h2 =>
    rw [h] at h1
    cases h1
  · rfl

/-- Witness for C10: the validation part applied to the filter the
example phrase produces. -/
theorem c10_nonpositive_witness :
    validateFilter { max_length := some (-2) } =
      .ok { max_length := some (-2) } :=
  c10_nonpositive_bounds.2 { max_length := some (-2) } rfl
